import Mathlib

/-!
Verification of the GPU-allocation dashboard (`src/main.rs`) against its
natural-language specification.

The development shallowly embeds the program's pure core:
* the resource-descriptor parser `extract_gpu_info` (main.rs lines 36-78),
* the fully-allocated predicate `is_node_fully_allocated` (lines 80-90),
* the per-frame view pipeline of `main` — filtering (lines 129-149),
  partition grouping (lines 151-172), the row count and scroll clamp
  (lines 168-175), row building and pagination with the alternating
  background (lines 194-305),
* the key dispatch (lines 330-369) and the exit-path structure of the
  main loop (lines 110-382).

Rust `u32` values are modelled as `Nat`; where the source performs raw
`u32` subtraction, release-build wraparound semantics are modelled
explicitly via `u32_sub` (a debug build would panic at the same inputs).
Strings are processed as their character lists; `splitOnChar` mirrors
`str::split` on a one-character pattern.
-/

namespace Turm

/-- Mirrors Rust `str::split(c)` on the character list of a string:
splitting the empty string yields one empty segment, and every occurrence
of the separator starts a new segment. -/
def splitOnChar (c : Char) : List Char → List (List Char)
  | [] => [[]]
  | x :: xs =>
    let r := splitOnChar c xs
    if x = c then [] :: r
    else
      match r with
      | [] => [[x]]
      | y :: ys => (x :: y) :: ys

/-- Mirrors Rust `str::parse::<u32>()`: an optional leading `+` sign, then
one or more ASCII digits, value bounded by `u32::MAX`; anything else is a
parse failure (`none`). -/
def parseU32 (s : List Char) : Option Nat :=
  let t := match s with
    | '+' :: rest => rest
    | _ => s
  if t.isEmpty then none
  else if t.all (fun ch => ch.isDigit) then
    let v := t.foldl (fun acc ch => acc * 10 + (ch.toNat - 48)) 0
    if v < 4294967296 then some v else none
  else none

/-- The count field of one gres entry (main.rs lines 45-49 and 65-69):
if the field contains `(`, parse the part before the first `(`
(Rust `split_once`), otherwise parse the whole field. -/
def countField (gpu_info : List Char) : Option Nat :=
  parseU32 ((splitOnChar '(' gpu_info).headD gpu_info)

/-- One gres entry (main.rs lines 42-53): split on `:`; an entry with
fewer than 3 colon-delimited fields is skipped (`none`), otherwise the
third field is the count field. -/
def entryCount (gres_entry : List Char) : Option Nat :=
  match splitOnChar ':' gres_entry with
  | _ :: _ :: gpu_info :: _ => countField gpu_info
  | _ => none

/-- The `u32` modulus. -/
def U32_MOD : Nat := 4294967296

/-- Rust `Iterator::sum::<u32>()` with release-build semantics: each
addition wraps modulo `2^32`; a debug build panics at the overflowing
addition instead. -/
def u32_sum (l : List Nat) : Nat :=
  l.foldl (fun acc n => (acc + n) % U32_MOD) 0

/-- Total count from one optional descriptor string (main.rs lines 37-55
and 57-75): missing input is treated as `""`, the string is split on `,`,
unparsable entries are skipped (`filter_map`), parsed counts are summed
with the `u32` wrapping sum of `.sum()` (lines 55 and 75). -/
def gpuCount (gres : Option String) : Nat :=
  u32_sum ((splitOnChar ',' (gres.getD "").data).filterMap entryCount)

/-- The node record decoded from the scheduler query (main.rs lines 26-34).
`u32` fields are modelled as `Nat`. -/
structure Node where
  name : String
  gres : Option String
  gres_used : Option String
  partitions : List String
  cpus : Nat
  alloc_cpus : Nat
deriving DecidableEq

/-- main.rs lines 36-78: `(allocated_gpus, total_gpus)`, the allocated
count parsed from `gres_used` and the total parsed from `gres`. -/
def extract_gpu_info (node : Node) : Nat × Nat :=
  (gpuCount node.gres_used, gpuCount node.gres)

/-- Raw Rust `u32` subtraction `a - b` with release-build (wrapping)
semantics; a debug build panics when `b > a`. -/
def u32_sub (a b : Nat) : Nat :=
  (a % U32_MOD + (U32_MOD - b % U32_MOD)) % U32_MOD

/-- The free-GPU value of the row builders (main.rs lines 208 and 250):
`total_gpus - allocated_gpus` with raw `u32` subtraction. -/
def free_gpus (node : Node) : Nat :=
  u32_sub (extract_gpu_info node).2 (extract_gpu_info node).1

/-- The free-CPU value of the row builders (main.rs lines 209 and 251):
`node.cpus - node.alloc_cpus` with raw `u32` subtraction. -/
def free_cpus (node : Node) : Nat :=
  u32_sub node.cpus node.alloc_cpus

/-- Modelled from the spec (not the source): the spec requires
`free = saturating_sub(total, allocated)`; on `Nat` this is exactly
truncated subtraction. Used to compare the source's raw subtraction
against the specified saturating one. -/
def specSaturatingFree (total allocated : Nat) : Nat :=
  total - allocated

/-- main.rs lines 80-90. -/
def is_node_fully_allocated (node : Node) (gpu_only_mode : Bool) : Bool :=
  let p := extract_gpu_info node
  let is_gpus_fully_allocated : Bool := p.2 == 0 || p.1 == p.2
  if gpu_only_mode && decide (0 < p.2) then
    is_gpus_fully_allocated
  else
    is_gpus_fully_allocated && (node.alloc_cpus == node.cpus)

/-- The hide-filter predicate (main.rs lines 132-145). The GPU test uses
the raw `u32` subtraction of the source. -/
def keepNode (gpu_only_mode : Bool) (node : Node) : Bool :=
  let p := extract_gpu_info node
  if gpu_only_mode then
    if 0 < p.2 then decide (0 < u32_sub p.2 p.1)
    else decide (node.alloc_cpus < node.cpus)
  else
    decide (0 < u32_sub p.2 p.1) || decide (node.alloc_cpus < node.cpus)

/-- main.rs lines 129-149: when the hide-filter is on, keep the nodes
passing `keepNode` in order; otherwise keep all nodes. -/
def filteredNodes (nodes : List Node) (hide_no_free_gpus gpu_only_mode : Bool) :
    List Node :=
  if hide_no_free_gpus then nodes.filter (keepNode gpu_only_mode) else nodes

/-- Lexicographic comparison of character lists, mirroring the `Ord`
instance Rust's `String::cmp` uses in `sort_by` (main.rs line 162):
compare position by position, a strict prefix is smaller. UTF-8 byte
order and code-point order coincide, so comparing `Char`s is faithful. -/
def charsLe : List Char → List Char → Bool
  | [], _ => true
  | _ :: _, [] => false
  | a :: as, b :: bs =>
    if a < b then true
    else if b < a then false
    else charsLe as bs

/-- Lexicographic string order used for the partition-label sort. -/
def strLe (a b : String) : Prop := charsLe a.data b.data = true

instance : DecidableRel strLe := fun _ _ => instDecidableEqBool _ _

/-- The key set of the `partition_map` HashMap (main.rs lines 152-160):
every partition name occurring in some node's partition list, each once.
The HashMap is modelled by this key set together with `bucketMembers`;
its hash-dependent iteration order is quantified away in the
order-independence part of the grouping theorem. -/
def partitionKeys (nodes : List Node) : List String :=
  (nodes.flatMap fun n => n.partitions).dedup

/-- The bucket of partition `p` (main.rs lines 153-159): the outer loop
runs over the filtered nodes in order, the inner loop over each node's
partition list in order, pushing the node once per occurrence of `p`.
`entry(..).push` preserves this per-key insertion order. -/
def bucketMembers (nodes : List Node) (p : String) : List Node :=
  nodes.flatMap fun n => (n.partitions.filter fun q => decide (q = p)).map fun _ => n

/-- main.rs line 162: `sort_by(|a, b| a.0.cmp(&b.0))` — the keys in
lexicographically ascending order. -/
def sortedKeys (nodes : List Node) : List String :=
  List.insertionSort strLe (partitionKeys nodes)

/-- main.rs lines 151-163: the sorted `(partition, members)` list produced
when grouping is on. -/
def groupedNodes (nodes : List Node) : List (String × List Node) :=
  (sortedKeys nodes).map fun p => (p, bucketMembers nodes p)

/-- A display row: a group-header row or a node row. The cell contents of
a node row (name, free/alloc/total GPU, CPU usage, free CPU, emphasis)
are all computed from the node itself (main.rs lines 196-288), so the
node identifies the row. -/
inductive DisplayRow where
  | header (partition : String)
  | node (node : Node)
deriving DecidableEq

/-- main.rs lines 196-246: each bucket emits one header row, then one row
per member. -/
def groupedRows (g : List (String × List Node)) : List DisplayRow :=
  g.flatMap fun pr => DisplayRow.header pr.1 :: pr.2.map DisplayRow.node

/-- The full row list of one frame (main.rs lines 194-288): grouped rows
when grouping is on, else one row per filtered node in snapshot order. -/
def viewRows (nodes : List Node) (hide gpuOnly group : Bool) : List DisplayRow :=
  let f := filteredNodes nodes hide gpuOnly
  if group then groupedRows (groupedNodes f) else f.map DisplayRow.node

/-- main.rs lines 168-172: `total_rows` — when grouped, the sum over
buckets of `members + 1`; otherwise the filtered node count. -/
def viewTotalRows (nodes : List Node) (hide gpuOnly group : Bool) : Nat :=
  let f := filteredNodes nodes hide gpuOnly
  if group then ((groupedNodes f).map fun pr => pr.2.length + 1).sum
  else f.length

/-- main.rs lines 290-295: `enumerate().skip(scroll).take(rows_per_page)`.
Note `enumerate` runs before `skip`, so the carried index is the row's
absolute index in the full row list. -/
def paginate (rows : List DisplayRow) (scroll rows_per_page : Nat) :
    List (Nat × DisplayRow) :=
  (rows.enum.drop scroll).take rows_per_page

/-- main.rs lines 297-305: the background of a displayed row is the dark
stripe exactly when `(scroll + index) % 2 != 0` (index as produced by
`paginate`, i.e. already absolute). -/
def rowDarkBg (scroll : Nat) (ir : Nat × DisplayRow) : Bool :=
  decide ((scroll + ir.1) % 2 ≠ 0)

/-- The displayed window with each row's stripe flag (main.rs 290-305). -/
def displayedStriped (rows : List DisplayRow) (scroll rows_per_page : Nat) :
    List (DisplayRow × Bool) :=
  (paginate rows scroll rows_per_page).map fun ir => (ir.2, rowDarkBg scroll ir)

/-- The mutable view state of the main loop (main.rs lines 112-123). -/
structure ViewState where
  hide_no_free_gpus : Bool
  gpu_only_mode : Bool
  group_by_partitions : Bool
  scroll : Nat
deriving DecidableEq

/-- The recognized key events (main.rs lines 332-365): `q`, `f`, `s`, `c`,
Up/`k`, Down/`j`, PageUp, PageDown, Home, End, and everything else. -/
inductive Key where
  | qKey
  | fKey
  | sKey
  | cKey
  | upKey
  | downKey
  | pageUpKey
  | pageDownKey
  | homeKey
  | endKey
  | otherKey
deriving DecidableEq

/-- main.rs lines 332-365: the effect of one key event on the view state.
`node_count` is `nodes.len()` — the Down/PageDown/End bounds are computed
from the raw snapshot node count (lines 349, 356, 363), not from
`total_rows`. `q` only breaks the loop (modelled in `mainRun`); Nat
subtraction is Rust `saturating_sub` on `usize`. -/
def dispatchKey (k : Key) (st : ViewState) (node_count rows_per_page : Nat) :
    ViewState :=
  match k with
  | Key.fKey =>
      { st with hide_no_free_gpus := !st.hide_no_free_gpus, scroll := 0 }
  | Key.sKey =>
      { st with group_by_partitions := !st.group_by_partitions, scroll := 0 }
  | Key.cKey =>
      { st with gpu_only_mode := !st.gpu_only_mode }
  | Key.upKey =>
      { st with scroll := st.scroll - 1 }
  | Key.downKey =>
      { st with scroll := min (st.scroll + 1) (node_count - rows_per_page) }
  | Key.pageUpKey =>
      { st with scroll := st.scroll - rows_per_page }
  | Key.pageDownKey =>
      { st with scroll := min (st.scroll + rows_per_page) (node_count - rows_per_page) }
  | Key.homeKey =>
      { st with scroll := 0 }
  | Key.endKey =>
      { st with scroll := node_count - rows_per_page }
  | _ => st

/-- main.rs line 174: `max_scroll = total_rows.saturating_sub(rows_per_page)`
(on `Nat`, truncated subtraction is exactly `max 0 (total - rpp)`). -/
def max_scroll (total_rows rows_per_page : Nat) : Nat :=
  total_rows - rows_per_page

/-- main.rs line 175: the scroll value actually used by the frame,
`scroll.min(max_scroll)`, recomputed from the current row set at the top
of every iteration — before pagination. -/
def frameScroll (st : ViewState) (nodes : List Node) (rows_per_page : Nat) : Nat :=
  min st.scroll
    (max_scroll
      (viewTotalRows nodes st.hide_no_free_gpus st.gpu_only_mode st.group_by_partitions)
      rows_per_page)

/-- How one loop iteration can end, for the exit-path model. -/
inductive MainExit where
  | normalQuit
  | errExit
deriving DecidableEq

/-- The outcome of one loop iteration: rendering and fetch succeed and a
key (or none) is read; or `terminal.draw(..)?` fails (main.rs line 328);
or `load_nodes_from_command()?` fails at periodic refresh (line 372). -/
inductive FrameOutcome where
  | ok (key : Option Key)
  | drawFails
  | fetchFails

/-- The exit-path structure of the main loop (main.rs lines 125-382):
result is `none` while the loop keeps running, otherwise the exit kind
paired with whether the terminal-restoration code (lines 377-379,
`disable_raw_mode`, `LeaveAlternateScreen`, `show_cursor`) executed.
A failing `terminal.draw(..)?` or `load_nodes_from_command()?` returns
from `main` immediately via `?`, bypassing lines 377-379; only the
`break` on `q` (line 333) reaches them. -/
def mainRun : List FrameOutcome → Option (MainExit × Bool)
  | [] => none
  | FrameOutcome.drawFails :: _ => some (MainExit.errExit, false)
  | FrameOutcome.fetchFails :: _ => some (MainExit.errExit, false)
  | FrameOutcome.ok (some Key.qKey) :: _ => some (MainExit.normalQuit, true)
  | FrameOutcome.ok _ :: rest => mainRun rest

/-- Node with more GPUs allocated than present and more CPUs allocated
than present, as inconsistent scheduler data can report. -/
def overAllocNode : Node :=
  ⟨"n0", none, some "gpu:a100:1", [], 0, 1⟩

/-- Node with 1 total GPU but 2 allocated, CPUs fully allocated. -/
def overAllocKept : Node :=
  ⟨"c0", some "gpu:a100:1", some "gpu:a100:2", ["p"], 8, 8⟩

/-- Node with 8 GPUs all allocated and 16 CPUs none allocated. -/
def exampleFullGpu : Node :=
  ⟨"ex", some "gpu:a100:8", some "gpu:a100:8", ["p"], 16, 0⟩

/-- A node named `nm` in the single partition `p`. -/
def mkP (nm : String) : Node :=
  ⟨nm, none, none, ["p"], 4, 0⟩

/-- A three-node snapshot in one shared partition. -/
def nodes3 : List Node :=
  [mkP "n1", mkP "n2", mkP "n3"]

/-- A node whose partition list is empty. -/
def emptyPartNode : Node :=
  ⟨"e0", none, none, [], 4, 0⟩

/-- A node belonging to the two partitions `a` and `b`. -/
def twoPartNode : Node :=
  ⟨"t0", none, none, ["a", "b"], 4, 0⟩

theorem charsLe_total (as bs : List Char) :
    charsLe as bs = true ∨ charsLe bs as = true := by
  induction as generalizing bs with
  | nil => left; rfl
  | cons a as ih =>
    cases bs with
    | nil => right; rfl
    | cons b bs =>
      rcases lt_trichotomy a b with h | h | h
      · left; simp [charsLe, h]
      · subst h
        rcases ih bs with h2 | h2
        · left; simpa [charsLe] using h2
        · right; simpa [charsLe] using h2
      · right; simp [charsLe, h]

theorem charsLe_trans {as bs cs : List Char} (h1 : charsLe as bs = true)
    (h2 : charsLe bs cs = true) : charsLe as cs = true := by
  induction as generalizing bs cs with
  | nil => rfl
  | cons a as ih =>
    cases bs with
    | nil => simp [charsLe] at h1
    | cons b bs =>
      cases cs with
      | nil => simp [charsLe] at h2
      | cons c cs =>
        simp only [charsLe] at h1 h2 ⊢
        rcases lt_trichotomy a b with hab | hab | hab
        · rcases lt_trichotomy b c with hbc | hbc | hbc
          · simp [lt_trans hab hbc]
          · subst hbc; simp [hab]
          · simp [hbc, not_lt_of_gt hbc] at h2
        · subst hab
          rcases lt_trichotomy a c with hac | hac | hac
          · simp [hac]
          · subst hac
            simp only [lt_irrefl, if_false] at h1 h2 ⊢
            exact ih h1 h2
          · simp [hac, not_lt_of_gt hac] at h2
        · simp [hab, not_lt_of_gt hab] at h1

theorem charsLe_antisymm {as bs : List Char} (h1 : charsLe as bs = true)
    (h2 : charsLe bs as = true) : as = bs := by
  induction as generalizing bs with
  | nil =>
    cases bs with
    | nil => rfl
    | cons b bs => simp [charsLe] at h2
  | cons a as ih =>
    cases bs with
    | nil => simp [charsLe] at h1
    | cons b bs =>
      rcases lt_trichotomy a b with hab | hab | hab
      · simp [charsLe, hab, not_lt_of_gt hab] at h2
      · subst hab
        simp only [charsLe, lt_irrefl, if_false] at h1 h2
        exact congrArg (a :: ·) (ih h1 h2)
      · simp [charsLe, hab, not_lt_of_gt hab] at h1

theorem strLe_total (a b : String) : strLe a b ∨ strLe b a :=
  charsLe_total a.data b.data

theorem strLe_trans {a b c : String} (h1 : strLe a b) (h2 : strLe b c) :
    strLe a c :=
  charsLe_trans h1 h2

theorem strLe_antisymm {a b : String} (h1 : strLe a b) (h2 : strLe b a) :
    a = b := by
  cases a with
  | mk da =>
    cases b with
    | mk db => exact congrArg String.mk (charsLe_antisymm h1 h2)

theorem splitOnChar_ne_nil (c : Char) (s : List Char) :
    splitOnChar c s ≠ [] := by
  cases s with
  | nil => simp [splitOnChar]
  | cons x xs =>
    simp only [splitOnChar]
    by_cases h : x = c
    · simp [h]
    · rcases hr : splitOnChar c xs with _ | ⟨y, ys⟩ <;> simp [h, hr]

theorem splitOnChar_of_not_mem {c : Char} {s : List Char} (h : c ∉ s) :
    splitOnChar c s = [s] := by
  induction s with
  | nil => rfl
  | cons x xs ih =>
    have hx : ¬ x = c := fun hh => h (hh ▸ List.mem_cons_self x xs)
    have hxs : c ∉ xs := fun hh => h (List.mem_cons_of_mem _ hh)
    simp only [splitOnChar, ih hxs, if_neg hx]

theorem splitOnChar_headD_append (c : Char) (pre suf d : List Char)
    (h : c ∉ pre) : (splitOnChar c (pre ++ c :: suf)).headD d = pre := by
  induction pre with
  | nil => simp [splitOnChar]
  | cons x xs ih =>
    have hx : ¬ x = c := fun hh => h (hh ▸ List.mem_cons_self x xs)
    have hxs : c ∉ xs := fun hh => h (List.mem_cons_of_mem _ hh)
    simp only [List.cons_append, splitOnChar]
    rcases hr : splitOnChar c (xs ++ c :: suf) with _ | ⟨y, ys⟩
    · exact absurd hr (splitOnChar_ne_nil c _)
    · have hy : y = xs := by
        have := ih hxs
        rw [hr] at this
        simpa using this
      simp [if_neg hx, hy]

theorem countField_paren (pre suf : List Char) (h : '(' ∉ pre) :
    countField (pre ++ '(' :: suf) = parseU32 pre := by
  unfold countField
  rw [splitOnChar_headD_append _ _ _ _ h]

theorem countField_no_paren (g : List Char) (h : '(' ∉ g) :
    countField g = parseU32 g := by
  unfold countField
  rw [splitOnChar_of_not_mem h]
  rfl

theorem foldl_mod_add (l : List Nat) (acc : Nat) :
    l.foldl (fun a n => (a + n) % U32_MOD) (acc % U32_MOD)
      = (acc + l.sum) % U32_MOD := by
  induction l generalizing acc with
  | nil => simp
  | cons n t ih =>
    have h1 : (acc % U32_MOD + n) % U32_MOD = (acc + n) % U32_MOD := by
      simp only [U32_MOD]
      omega
    rw [List.foldl_cons, h1, ih (acc + n), List.sum_cons, Nat.add_assoc]

theorem u32_sum_eq_sum_mod (l : List Nat) : u32_sum l = l.sum % U32_MOD := by
  have h := foldl_mod_add l 0
  simpa [u32_sum] using h

theorem filter_eq_of_nodup {l : List String} {p : String} (hnd : l.Nodup)
    (hp : p ∈ l) : l.filter (fun q => decide (q = p)) = [p] := by
  induction l with
  | nil => cases hp
  | cons a t ih =>
    rcases List.nodup_cons.mp hnd with ⟨hat, hnt⟩
    rcases List.mem_cons.mp hp with h | h
    · subst h
      have : t.filter (fun q => decide (q = p)) = [] := by
        apply List.filter_eq_nil_iff.mpr
        intro q hq
        simp only [decide_eq_true_eq]
        exact fun hqp => hat (hqp ▸ hq)
      simp [List.filter_cons, this]
    · have hap : ¬ a = p := fun hh => hat (hh ▸ h)
      simp [List.filter_cons, hap, ih hnt h]

theorem filter_eq_of_not_mem {l : List String} {p : String} (hp : p ∉ l) :
    l.filter (fun q => decide (q = p)) = [] := by
  apply List.filter_eq_nil_iff.mpr
  intro q hq
  simp only [decide_eq_true_eq]
  exact fun hqp => hp (hqp ▸ hq)

theorem sum_map_add_nat {α : Type} (ks : List α) (f g : α → Nat) :
    (ks.map fun p => f p + g p).sum = (ks.map f).sum + (ks.map g).sum := by
  induction ks with
  | nil => rfl
  | cons k ks ih => simp [ih]; omega

theorem sum_indicator_of_nodup {ks : List String} {a : String}
    (hnd : ks.Nodup) (ha : a ∈ ks) :
    (ks.map fun p => if a = p then 1 else 0).sum = 1 := by
  induction ks with
  | nil => cases ha
  | cons k ks ih =>
    rcases List.nodup_cons.mp hnd with ⟨hk, hks⟩
    rcases List.mem_cons.mp ha with h | h
    · subst h
      have hz : (ks.map fun p => if a = p then 1 else 0).sum = 0 := by
        apply List.sum_eq_zero
        intro x hx
        rcases List.mem_map.mp hx with ⟨p, hp, rfl⟩
        have : ¬ a = p := fun hh => hk (hh ▸ hp)
        simp [this]
      simp [hz]
    · have : ¬ a = k := fun hh => hk (hh ▸ h)
      simp [this, ih hks h]

theorem sum_filter_lengths_eq_length (ks l : List String) (hnd : ks.Nodup)
    (hcov : ∀ x ∈ l, x ∈ ks) :
    (ks.map fun p => (l.filter fun q => decide (q = p)).length).sum = l.length := by
  induction l with
  | nil => simp
  | cons a t ih =>
    have hks : ∀ x ∈ t, x ∈ ks := fun x hx => hcov x (List.mem_cons_of_mem _ hx)
    have ha : a ∈ ks := hcov a (List.mem_cons_self a t)
    have hstep : (ks.map fun p => ((a :: t).filter fun q => decide (q = p)).length)
        = ks.map fun p => (t.filter fun q => decide (q = p)).length + if a = p then 1 else 0 := by
      apply List.map_congr_left
      intro p _
      by_cases h : a = p <;> simp [List.filter_cons, h]
    rw [hstep, sum_map_add_nat, ih hks, sum_indicator_of_nodup hnd ha]
    simp

theorem bucketMembers_eq_filter (nodes : List Node) (p : String)
    (h : ∀ n ∈ nodes, n.partitions.Nodup) :
    bucketMembers nodes p = nodes.filter (fun n => decide (p ∈ n.partitions)) := by
  induction nodes with
  | nil => rfl
  | cons n ns ih =>
    have hn := h n (List.mem_cons_self n ns)
    have ih2 := ih (fun m hm => h m (List.mem_cons_of_mem _ hm))
    unfold bucketMembers at ih2 ⊢
    rw [List.flatMap_cons, List.filter_cons]
    by_cases hp : p ∈ n.partitions
    · rw [filter_eq_of_nodup hn hp, if_pos (by simpa using hp), ih2]
      rfl
    · rw [filter_eq_of_not_mem hp, if_neg (by simpa using hp), ih2]
      rfl

theorem sortedKeys_perm (nodes : List Node) :
    (sortedKeys nodes).Perm (partitionKeys nodes) :=
  List.perm_insertionSort strLe (partitionKeys nodes)

theorem sortedKeys_nodup (nodes : List Node) : (sortedKeys nodes).Nodup :=
  (sortedKeys_perm nodes).nodup_iff.mpr (List.nodup_dedup _)

theorem sortedKeys_sorted (nodes : List Node) :
    List.Sorted strLe (sortedKeys nodes) := by
  haveI : IsTotal String strLe := ⟨strLe_total⟩
  haveI : IsTrans String strLe := ⟨fun _ _ _ => strLe_trans⟩
  exact List.sorted_insertionSort strLe (partitionKeys nodes)

theorem mem_sortedKeys {nodes : List Node} {p : String} :
    p ∈ sortedKeys nodes ↔ ∃ n ∈ nodes, p ∈ n.partitions := by
  rw [(sortedKeys_perm nodes).mem_iff]
  simp [partitionKeys, List.mem_dedup, List.mem_flatMap]

theorem sortedKeys_strict (nodes : List Node) :
    (sortedKeys nodes).Pairwise (fun a b => strLe a b ∧ a ≠ b) := by
  have hs : (sortedKeys nodes).Pairwise strLe := sortedKeys_sorted nodes
  have hn : (sortedKeys nodes).Pairwise (· ≠ ·) := sortedKeys_nodup nodes
  exact hs.and hn

theorem insertionSort_eq_of_perm {ks : List String} {nodes : List Node}
    (h : ks.Perm (partitionKeys nodes)) :
    List.insertionSort strLe ks = sortedKeys nodes := by
  haveI : IsTotal String strLe := ⟨strLe_total⟩
  haveI : IsTrans String strLe := ⟨fun _ _ _ => strLe_trans⟩
  haveI : IsAntisymm String strLe := ⟨fun _ _ => strLe_antisymm⟩
  exact List.eq_of_perm_of_sorted
    ((List.perm_insertionSort strLe ks).trans
      (h.trans (List.perm_insertionSort strLe _).symm))
    (List.sorted_insertionSort strLe ks)
    (List.sorted_insertionSort strLe _)

theorem groupedRows_length (g : List (String × List Node)) :
    (groupedRows g).length = (g.map fun pr => pr.2.length + 1).sum := by
  unfold groupedRows
  rw [List.length_flatMap]
  congr 1
  apply List.map_congr_left
  intro pr _
  simp [Function.comp]

theorem viewRows_length (nodes : List Node) (h g gr : Bool) :
    (viewRows nodes h g gr).length = viewTotalRows nodes h g gr := by
  unfold viewRows viewTotalRows
  cases gr <;> simp [groupedRows_length]

theorem grouped_single_memberships (n : Node) :
    ((groupedNodes [n]).map fun pr => pr.2.length).sum = n.partitions.length := by
  unfold groupedNodes
  rw [List.map_map]
  have h1 : ((fun pr : String × List Node => pr.2.length) ∘ fun p => (p, bucketMembers [n] p))
      = fun p => ((n.partitions.filter fun q => decide (q = p)).length) := by
    funext p
    simp [bucketMembers]
  rw [h1]
  apply sum_filter_lengths_eq_length _ _ (sortedKeys_nodup [n])
  intro x hx
  exact mem_sortedKeys.mpr ⟨n, List.mem_cons_self n [], hx⟩

/-- C1: the claim says the displayed free-GPU/free-CPU values are computed
by saturating subtraction with `0 ≤ free ≤ total`. The code (main.rs lines
208-209 and 250-251) instead uses raw `u32` subtraction: on a node
reporting 1 allocated GPU against 0 total and 1 allocated CPU against 0
total, the computed free values are `u32::MAX = 4294967295` (wraparound in
a release build; a debug build panics), violating `free ≤ total`, whereas
the spec's saturating subtraction yields 0. -/
theorem c1_free_subtraction_wraps :
    extract_gpu_info overAllocNode = (1, 0)
    ∧ free_gpus overAllocNode = 4294967295
    ∧ free_cpus overAllocNode = 4294967295
    ∧ ¬ free_gpus overAllocNode ≤ (extract_gpu_info overAllocNode).2
    ∧ specSaturatingFree (extract_gpu_info overAllocNode).2
        (extract_gpu_info overAllocNode).1 = 0 := by
  refine ⟨by decide, by decide, by decide, by decide, by decide⟩

/-- C3 counterexample: with three nodes in one shared partition, grouping
on and the hide-filter off, the view has 4 rows (1 header + 3 nodes), so
the claim's `maxScroll = max(0, totalRows − viewportRows) = 2` for a
2-row viewport; but pressing End (main.rs line 363) sets the offset from
the raw node count, `nodes.len() − viewportRows = 1 ≠ 2`. -/
theorem c3_end_key_uses_node_count :
    (dispatchKey Key.endKey ⟨false, true, true, 1⟩ nodes3.length 2).scroll = 1
    ∧ viewTotalRows nodes3 false true true = 4
    ∧ max_scroll (viewTotalRows nodes3 false true true) 2 = 2
    ∧ (1 : Nat) ≠ 2 := by
  refine ⟨by decide, by decide, by decide, by decide⟩

/-- C3 amended: the scroll commands saturate at a bound computed from the
raw snapshot node count, not the view row count: down/`j` increments by 1
saturating at `nodeCount − viewportRows`, page-down adds `viewportRows`
saturating at the same bound, and End jumps to that bound (main.rs lines
348-363); the `totalRows`-based clamp is applied separately at the start
of the next frame (line 175). -/
theorem c3_scroll_bounds_from_node_count (st : ViewState)
    (node_count rows_per_page : Nat) :
    (dispatchKey Key.downKey st node_count rows_per_page).scroll
        ≤ node_count - rows_per_page
    ∧ (dispatchKey Key.pageDownKey st node_count rows_per_page).scroll
        ≤ node_count - rows_per_page
    ∧ (dispatchKey Key.endKey st node_count rows_per_page).scroll
        = node_count - rows_per_page
    ∧ (st.scroll < node_count - rows_per_page →
        (dispatchKey Key.downKey st node_count rows_per_page).scroll
          = st.scroll + 1) := by
  refine ⟨min_le_right _ _, min_le_right _ _, rfl, fun h => ?_⟩
  simp only [dispatchKey]
  omega

/-- Witness for the amended C3 theorem at a concrete state. -/
theorem c3_scroll_bounds_from_node_count_witness :
    (dispatchKey Key.downKey ⟨false, false, false, 0⟩ 5 2).scroll = 0 + 1 :=
  (c3_scroll_bounds_from_node_count ⟨false, false, false, 0⟩ 5 2).2.2.2 (by decide)

/-- C4: the claim says a row's stripe is determined by the parity of its
absolute index, stable under scrolling. In the code, `enumerate()` runs
before `skip(scroll)` (main.rs lines 290-295), so the carried index is
already absolute, and line 298 then applies `(scroll + index) % 2` —
double-counting the scroll. Concretely the row at absolute index 1 is
dark at scroll 0 but light at scroll 1: striping follows the position
inside the displayed window and resets on every scroll step. -/
theorem c4_striping_resets_per_page :
    displayedStriped [DisplayRow.header "a", DisplayRow.header "b"] 0 2
      = [(DisplayRow.header "a", false), (DisplayRow.header "b", true)]
    ∧ displayedStriped [DisplayRow.header "a", DisplayRow.header "b"] 1 2
      = [(DisplayRow.header "b", false)] := by
  refine ⟨by decide, by decide⟩

/-- C6: the claim says a node is kept (gpu-only mode, `totalGPU > 0`) iff
`freeGPU > 0` with the spec's saturating free. The filter (main.rs line
137) uses raw `u32` subtraction: a node with 1 total GPU and 2 allocated
has saturating free 0 (the claim drops it) but `u32` wraparound makes
`total - allocated = 4294967295 > 0`, so the code keeps it (a debug build
panics instead). -/
theorem c6_filter_keeps_overallocated_node :
    filteredNodes [overAllocKept] true true = [overAllocKept]
    ∧ (extract_gpu_info overAllocKept).1 = 2
    ∧ (extract_gpu_info overAllocKept).2 = 1
    ∧ specSaturatingFree (extract_gpu_info overAllocKept).2
        (extract_gpu_info overAllocKept).1 = 0 := by
  refine ⟨by decide, by decide, by decide, by decide⟩

/-- C8: toggling the hide-filter ('f') or the grouping ('s') key sets the
scroll offset to 0 unconditionally (main.rs lines 334-341), and the frame
scroll used at pagination is clamped each iteration to
`max(0, totalRows − viewportRows)` computed from the current frame's row
count (lines 174-175); on `Nat` the lower bound 0 holds by type. -/
theorem c8_scroll_reset_and_clamp :
    (∀ (st : ViewState) (nc rpp : Nat),
      (dispatchKey Key.fKey st nc rpp).scroll = 0)
    ∧ (∀ (st : ViewState) (nc rpp : Nat),
      (dispatchKey Key.sKey st nc rpp).scroll = 0)
    ∧ (∀ (st : ViewState) (nodes : List Node) (rpp : Nat),
      frameScroll st nodes rpp
        ≤ max_scroll
            (viewTotalRows nodes st.hide_no_free_gpus st.gpu_only_mode
              st.group_by_partitions) rpp) :=
  ⟨fun _ _ _ => rfl, fun _ _ _ => rfl, fun _ _ _ => min_le_right _ _⟩

/-- C9: the claim says every fatal exit path restores the terminal state.
In the code the restoration (main.rs lines 377-379) is only reached by
the `break` on `q`; a failing `terminal.draw(..)?` (line 328) or a failing
periodic `load_nodes_from_command()?` (line 372) returns from `main`
immediately, skipping restoration. -/
theorem c9_restore_only_on_normal_quit :
    mainRun [FrameOutcome.ok none, FrameOutcome.drawFails]
      = some (MainExit.errExit, false)
    ∧ mainRun [FrameOutcome.fetchFails] = some (MainExit.errExit, false)
    ∧ mainRun [FrameOutcome.ok (some Key.qKey)]
      = some (MainExit.normalQuit, true) := by
  refine ⟨rfl, rfl, rfl⟩

/-- C2 counterexample: the claim says the parser returns the sum of the
successfully parsed counts for every descriptor string. The source sums
with `u32` (`.sum()` at main.rs lines 55 and 75): on
`"t:m:3000000000,t:m:3000000000"` both counts parse, their mathematical
sum is 6000000000, but the `u32` sum wraps to 1705032704 in a release
build (a debug build panics at the overflowing addition). -/
theorem c2_sum_wraps_counterexample :
    gpuCount (some "t:m:3000000000,t:m:3000000000") = 1705032704
    ∧ ((splitOnChar ',' ("t:m:3000000000,t:m:3000000000" : String).data).filterMap
        entryCount).sum = 6000000000
    ∧ (1705032704 : Nat) ≠ 6000000000 := by
  refine ⟨by decide, by decide, by decide⟩

/-- C2 amended: the descriptor parser returns 0 for missing or empty
input, splits on commas then colons, skips entries with fewer than 3
fields and entries with unparsable count fields, parses the leading
integer before `(` when a parenthesized suffix is present (else the
whole field), and returns the sum of the parsed counts reduced modulo
`2^32` (the `u32` wrapping sum of `.sum()` in a release build; a debug
build panics on overflow) — equal to the plain sum whenever that sum
fits in a `u32`; the same rule is applied to both descriptors, and the
spec's five concrete examples hold. -/
theorem c2_parser_contract_amended :
    gpuCount none = 0
    ∧ gpuCount (some "") = 0
    ∧ gpuCount (some "gpu:a100:4(0-3),gpu:a100:4(4-7)") = 8
    ∧ gpuCount (some "gpu:a100:4") = 4
    ∧ gpuCount (some "gpu:a100") = 0
    ∧ (∀ s : String,
        gpuCount (some s)
          = ((splitOnChar ',' s.data).filterMap entryCount).sum % U32_MOD)
    ∧ (∀ s : String,
        ((splitOnChar ',' s.data).filterMap entryCount).sum < U32_MOD →
        gpuCount (some s) = ((splitOnChar ',' s.data).filterMap entryCount).sum)
    ∧ (∀ n : Node, extract_gpu_info n = (gpuCount n.gres_used, gpuCount n.gres))
    ∧ (∀ e : List Char, (splitOnChar ':' e).length < 3 → entryCount e = none)
    ∧ (∀ (e f1 f2 g : List Char) (t : List (List Char)),
        splitOnChar ':' e = f1 :: f2 :: g :: t → entryCount e = countField g)
    ∧ (∀ pre suf : List Char,
        '(' ∉ pre → countField (pre ++ '(' :: suf) = parseU32 pre)
    ∧ (∀ g : List Char, '(' ∉ g → countField g = parseU32 g) := by
  refine ⟨by decide, by decide, by decide, by decide, by decide,
    fun s => u32_sum_eq_sum_mod _,
    fun s hs => (u32_sum_eq_sum_mod _).trans (Nat.mod_eq_of_lt hs),
    fun n => rfl, ?_, ?_, countField_paren, countField_no_paren⟩
  · intro e h
    unfold entryCount
    rcases hr : splitOnChar ':' e with _ | ⟨a, _ | ⟨b, _ | ⟨g, t⟩⟩⟩
    · rfl
    · rfl
    · rfl
    · rw [hr] at h
      simp only [List.length_cons] at h
      omega
  · intro e f1 f2 g t hr
    unfold entryCount
    rw [hr]

/-- Witness for the hypothesis-bearing clauses of the amended C2 theorem
at concrete inputs. -/
theorem c2_parser_contract_amended_witness :
    gpuCount (some "gpu:a100:4")
      = ((splitOnChar ',' ("gpu:a100:4" : String).data).filterMap entryCount).sum
    ∧ entryCount ['g'] = none
    ∧ entryCount "a:b:4".data = countField ['4']
    ∧ countField (['4'] ++ '(' :: ['0', '-', '3', ')']) = parseU32 ['4']
    ∧ countField ['7'] = parseU32 ['7'] :=
  ⟨c2_parser_contract_amended.2.2.2.2.2.2.1 "gpu:a100:4" (by decide),
   c2_parser_contract_amended.2.2.2.2.2.2.2.2.1 ['g'] (by decide),
   c2_parser_contract_amended.2.2.2.2.2.2.2.2.2.1 "a:b:4".data ['a'] ['b'] ['4']
     [] (by decide),
   c2_parser_contract_amended.2.2.2.2.2.2.2.2.2.2.1 ['4'] ['0', '-', '3', ')']
     (by decide),
   c2_parser_contract_amended.2.2.2.2.2.2.2.2.2.2.2 ['7'] (by decide)⟩

/-- C5: `is_node_fully_allocated` returns, when `gpuOnlyMode` is on and
`totalGPU > 0`, true iff `allocatedGPU = totalGPU` with CPUs ignored
(witnessed by the spec's 8-GPU example with idle CPUs); otherwise true
iff (`totalGPU = 0` or `allocatedGPU = totalGPU`) and
`allocatedCPU = totalCPU` (main.rs lines 80-90). -/
theorem c5_fully_allocated_characterization :
    (∀ (n : Node) (m : Bool),
      (is_node_fully_allocated n m = true ↔
        if m = true ∧ 0 < (extract_gpu_info n).2 then
          (extract_gpu_info n).1 = (extract_gpu_info n).2
        else
          ((extract_gpu_info n).2 = 0 ∨ (extract_gpu_info n).1 = (extract_gpu_info n).2)
          ∧ n.alloc_cpus = n.cpus))
    ∧ is_node_fully_allocated exampleFullGpu true = true := by
  constructor
  · intro n m
    unfold is_node_fully_allocated
    cases m with
    | false => simp
    | true =>
      by_cases ht : 0 < (extract_gpu_info n).2
      · have ht2 : (extract_gpu_info n).2 ≠ 0 := Nat.pos_iff_ne_zero.mp ht
        simp [ht, ht2]
      · have ht2 : (extract_gpu_info n).2 = 0 := Nat.eq_zero_of_not_pos ht
        simp [ht, ht2]
  · decide

/-- C10: with grouping on, a node with an empty partition list joins no
bucket (main.rs lines 153-160), contributes no display row and is absent
from `total_rows` (line 169); with grouping off the same node contributes
exactly one row (line 171) — so enabling grouping can make nodes vanish
from the view. -/
theorem c10_empty_partitions_invisible (nodes : List Node) (n : Node)
    (gpuOnly : Bool) (h : n.partitions = []) :
    DisplayRow.node n ∉ viewRows nodes false gpuOnly true
    ∧ groupedNodes [n] = []
    ∧ viewTotalRows [n] false gpuOnly true = 0
    ∧ viewTotalRows [n] false gpuOnly false = 1 := by
  refine ⟨?_, ?_, ?_, ?_⟩
  · intro hmem
    have hmem2 : DisplayRow.node n ∈ groupedRows (groupedNodes nodes) := by
      simpa [viewRows, filteredNodes] using hmem
    unfold groupedRows at hmem2
    rw [List.mem_flatMap] at hmem2
    obtain ⟨pr, hpr, hrow⟩ := hmem2
    rcases List.mem_cons.mp hrow with hh | hh
    · exact DisplayRow.noConfusion hh
    · rw [List.mem_map] at hh
      obtain ⟨m, hm, hmeq⟩ := hh
      injection hmeq with hmn
      subst hmn
      unfold groupedNodes at hpr
      rw [List.mem_map] at hpr
      obtain ⟨p, hp, hpeq⟩ := hpr
      rw [← hpeq] at hm
      unfold bucketMembers at hm
      rw [List.mem_flatMap] at hm
      obtain ⟨m2, hm2, hmm⟩ := hm
      rw [List.mem_map] at hmm
      obtain ⟨q, hq, hqeq⟩ := hmm
      have hm2n : m2 = m := hqeq
      subst hm2n
      rw [h] at hq
      simp at hq
  · unfold groupedNodes sortedKeys partitionKeys
    simp [h]
  · unfold viewTotalRows filteredNodes
    simp [groupedNodes, sortedKeys, partitionKeys, h]
  · simp [viewTotalRows, filteredNodes]

/-- Witness for the C10 theorem at a concrete node with no partitions. -/
theorem c10_empty_partitions_invisible_witness :
    DisplayRow.node emptyPartNode ∉ viewRows [emptyPartNode] false true true
    ∧ groupedNodes [emptyPartNode] = []
    ∧ viewTotalRows [emptyPartNode] false true true = 0
    ∧ viewTotalRows [emptyPartNode] false true false = 1 :=
  c10_empty_partitions_invisible [emptyPartNode] emptyPartNode true rfl

/-- C7: when grouping is on — (1) bucket labels are strictly ascending in
the lexicographic string order (`strLe` with distinct labels); (2) a node
with N partition entries has N bucket memberships in total; (3) the row
list contributes `members + 1` rows per bucket, matching `total_rows`
(main.rs line 169); (4) when partition lists are duplicate-free, each
bucket holds exactly the filtered nodes of that partition in their
original snapshot order; (5) the result is independent of the HashMap's
iteration order: sorting any permutation of the key set yields the same
bucket list, so rebuilding from an unchanged snapshot and filters is
deterministic. -/
theorem c7_grouping_deterministic (nodes : List Node) :
    (groupedNodes nodes).Pairwise (fun a b => strLe a.1 b.1 ∧ a.1 ≠ b.1)
    ∧ (∀ n : Node,
        ((groupedNodes [n]).map fun pr => pr.2.length).sum = n.partitions.length)
    ∧ (groupedRows (groupedNodes nodes)).length
        = ((groupedNodes nodes).map fun pr => pr.2.length + 1).sum
    ∧ ((∀ n ∈ nodes, n.partitions.Nodup) →
        ∀ pr ∈ groupedNodes nodes,
          pr.2 = nodes.filter fun n => decide (pr.1 ∈ n.partitions))
    ∧ (∀ ks : List String, ks.Perm (partitionKeys nodes) →
        (List.insertionSort strLe ks).map (fun p => (p, bucketMembers nodes p))
          = groupedNodes nodes) := by
  refine ⟨?_, grouped_single_memberships, groupedRows_length _, ?_, ?_⟩
  · unfold groupedNodes
    exact (sortedKeys_strict nodes).map _ (fun a b hab => hab)
  · intro hnd pr hpr
    unfold groupedNodes at hpr
    rw [List.mem_map] at hpr
    obtain ⟨p, hp, hpeq⟩ := hpr
    rw [← hpeq]
    exact bucketMembers_eq_filter nodes p hnd
  · intro ks hk
    rw [insertionSort_eq_of_perm hk]
    rfl

/-- Witness for the hypothesis-bearing clauses of the C7 theorem: a node
in partitions `a` and `b`, with the key set permuted as `["b", "a"]`. -/
theorem c7_grouping_deterministic_witness :
    (List.insertionSort strLe ["b", "a"]).map
        (fun p => (p, bucketMembers [twoPartNode] p))
      = groupedNodes [twoPartNode]
    ∧ bucketMembers [twoPartNode] "a"
      = [twoPartNode].filter fun n => decide ("a" ∈ n.partitions) :=
  ⟨(c7_grouping_deterministic [twoPartNode]).2.2.2.2 ["b", "a"] (by decide),
   (c7_grouping_deterministic [twoPartNode]).2.2.2.1 (by decide)
     ("a", bucketMembers [twoPartNode] "a") (by decide)⟩

end Turm
